import Mathlib

/-
  Verification of the WisconsinShell (wsh) command interpreter.

  This file gives a shallow embedding, in Lean 4, of the pure state and
  string logic of src/solution/wsh.c: tokenization (strtok over the
  delimiter set), variable substitution, redirection-token scanning,
  the circular history buffer (add, show, resize, replay), the shell
  variable store (the local and vars built-ins), environment updates
  (export), and the control-flow skeleton of execute_command and
  launch_process.  System effects (fork, exec, file descriptors, chdir,
  printing) are abstracted: a child process outcome is an oracle value,
  and printing built-ins are modelled by the list of lines they emit.
  Allocation failures are assumed not to occur (the C code either
  aborts the process or returns early on them).
-/

namespace Wsh

/-- Environment variables, modelled as an association list searched
front to back (getenv returns the first binding). -/
abbrev Env := List (String × String)

/-- The shell variable store: the VarNode linked list, kept in
insertion order, head first. -/
abbrev Vars := List (String × String)

/-- Lookup of an environment variable, first match wins. -/
def getenv : Env → String → Option String
  | [], _ => none
  | (n, v) :: rest, name => if n = name then some v else getenv rest name

/-- The loop over the VarNode list inside handle_variable_substitution
(wsh.c:264-270): returns the value of the first matching variable, or
the empty string when no variable matches (wsh.c:273). -/
def lookupVarLoop : Vars → String → String
  | [], _ => ""
  | (n, v) :: rest, name => if n = name then v else lookupVarLoop rest name

/-- Option-valued first-match lookup in the variable store (used by the
spec-side substitution function). -/
def lookupVar : Vars → String → Option String
  | [], _ => none
  | (n, v) :: rest, name => if n = name then some v else lookupVar rest name

/-- builtin_str (wsh.c:32-40). -/
def builtin_str : List String :=
  ["cd", "exit", "export", "local", "vars", "history", "ls"]

/-- DELIMITERS " \t\r\n\a" (wsh.h:17). -/
def isDelim (c : Char) : Bool :=
  c = ' ' ∨ c = '\t' ∨ c = '\r' ∨ c = '\n' ∨ c = '\x07'

/-- Accumulator loop for tokenize: splits on delimiter runs, producing
no empty tokens, exactly like repeated strtok (wsh.c:292-308). -/
def tokenizeAux : List Char → List Char → List String
  | [], acc => if acc = [] then [] else [String.mk acc.reverse]
  | c :: cs, acc =>
    if isDelim c then
      if acc = [] then tokenizeAux cs []
      else String.mk acc.reverse :: tokenizeAux cs []
    else tokenizeAux cs (c :: acc)

/-- strtok splitting of a line on DELIMITERS, as done by parse_line. -/
def tokenize (line : String) : List String := tokenizeAux line.data []

/-- handle_variable_substitution (wsh.c:250-274): a token starting with
the dollar character is replaced by the value of the environment
variable named by the whole remainder, else by the matching shell
variable, else by the empty string; any other token is copied
verbatim. -/
def handle_variable_substitution (env : Env) (vars : Vars) (token : String) : String :=
  match token.data with
  | [] => token
  | c :: rest =>
    if c = '$' then
      match getenv env (String.mk rest) with
      | some v => v
      | none => lookupVarLoop vars (String.mk rest)
    else token

/-- Modelled from the words of spec section 4.1, for comparison with
handle_variable_substitution: a token starting with the dollar sign has
its remainder looked up first among environment variables, then in the
variable store, and is replaced by the value found or by the empty
string; other tokens are copied verbatim. -/
def substitute_spec (env : Env) (vars : Vars) (token : String) : String :=
  match token.data with
  | [] => token
  | c :: rest =>
    if c = '$' then
      (((getenv env (String.mk rest)).orElse
          fun _ => lookupVar vars (String.mk rest)).getD "")
    else token

/-- parse_line (wsh.c:282-311): tokenize, then substitute every token
independently. -/
def parse_line (env : Env) (vars : Vars) (line : String) : List String :=
  (tokenize line).map (handle_variable_substitution env vars)

/-- atoi digit-consuming loop (standard C semantics, overflow ignored:
the inputs of interest are small). -/
def atoiDigits : List Char → Int → Int
  | [], acc => acc
  | c :: cs, acc =>
    if c.isDigit then atoiDigits cs (acc * 10 + ((c.toNat : Int) - 48)) else acc

/-- atoi: skip leading whitespace, optional sign, then a digit run. -/
def atoi (s : String) : Int :=
  match s.data.dropWhile (fun c => c = ' ' ∨ c = '\t' ∨ c = '\n' ∨
      c = '\x0b' ∨ c = '\x0c' ∨ c = '\r') with
  | '-' :: rest => - atoiDigits rest 0
  | '+' :: rest => atoiDigits rest 0
  | cs => atoiDigits cs 0

/-- Redirection intent produced by parse_redirection (its four output
parameters, wsh.c:323-327). -/
structure Redirection where
  input : Option String
  output : Option String
  append : Bool
  redirect_stderr : Bool
deriving Repr, DecidableEq

/-- The if-else chain applied to one token by the scanning loop of
parse_redirection (wsh.c:331-355), in source order: the 2-character
operators are tested before the 3-character one, so the final branch
for the 3-character operator is unreachable.  A take of length n equal
to the operator characters is exactly strncmp(tok, op, n) == 0. -/
def classify_redir_token (t : String) : Option Redirection :=
  if t.data.take 2 = ['>', '>'] then
    some ⟨none, some (String.mk (t.data.drop 2)), true, false⟩
  else if t.data.take 1 = ['>'] then
    some ⟨none, some (String.mk (t.data.drop 1)), false, false⟩
  else if t.data.take 1 = ['<'] then
    some ⟨some (String.mk (t.data.drop 1)), none, false, false⟩
  else if t.data.take 2 = ['&', '>'] then
    some ⟨none, some (String.mk (t.data.drop 2)), false, true⟩
  else if t.data.take 3 = ['&', '>', '>'] then
    some ⟨none, some (String.mk (t.data.drop 3)), true, true⟩
  else none

/-- parse_redirection (wsh.c:323-360): scan left to right; at the first
token matching an operator, record the intent, null out that slot and
stop.  Since the argument vector is null-terminated, the executed
arguments are exactly the tokens before the operator token; this
function returns that prefix together with the intent. -/
def parse_redirection : List String → List String × Redirection
  | [] => ([], ⟨none, none, false, false⟩)
  | a :: rest =>
    match classify_redir_token a with
    | some r => ([], r)
    | none =>
      let p := parse_redirection rest
      (a :: p.1, p.2)

/-- MAX_HISTORY (wsh.h:19). -/
def MAX_HISTORY : Nat := 5

/-- The History record (wsh.c:13-18): a circular buffer of capacity
slots; unused slots hold none (NULL in C). -/
structure History where
  commands : List (Option String)
  capacity : Nat
  count : Nat
  start : Nat
deriving Repr, DecidableEq

/-- History state established by initialize_shell (wsh.c:63-74). -/
def init_history : History :=
  ⟨List.replicate MAX_HISTORY none, MAX_HISTORY, 0, 0⟩

/-- add_history (wsh.c:105-141): skip when capacity is zero, when the
command string equals one of the built-in names, or when it equals the
most recently stored entry; otherwise append at the logical end, or
when full overwrite the slot at start and advance start. -/
def add_history (h : History) (command : String) : History :=
  if h.capacity = 0 then h
  else if command ∈ builtin_str then h
  else if 0 < h.count ∧
      h.commands.getD ((h.start + h.count - 1) % h.capacity) none = some command then h
  else if h.count < h.capacity then
    { h with
      commands := h.commands.set ((h.start + h.count) % h.capacity) (some command),
      count := h.count + 1 }
  else
    { h with
      commands := h.commands.set h.start (some command),
      start := (h.start + 1) % h.capacity }

/-- show_history (wsh.c:146-151): the texts printed, in print order;
the printed numbering is the 1-based position in this list. -/
def show_history (h : History) : List String :=
  (List.range h.count).map fun i =>
    (h.commands.getD ((h.start + h.count - 1 - i) % h.capacity) none).getD ""

/-- set_history_capacity (wsh.c:158-202): reject non-positive
capacities; otherwise allocate a fresh buffer, copy
min(count, capacity) entries using the same index formula as
show_history (newest first into ascending slots), and reset start to
zero. -/
def set_history_capacity (h : History) (capacity : Int) : History :=
  if capacity ≤ 0 then h
  else
    let cap := capacity.toNat
    let new_count := min h.count cap
    ⟨(List.range cap).map fun i =>
        if i < new_count then
          h.commands.getD ((h.start + h.count - 1 - i) % h.capacity) none
        else none,
      cap, new_count, 0⟩

/-- Well-formedness of a history state: every logical slot holds a
stored string (non-NULL), as is the case for every state the shell
actually reaches. -/
def HistWF (h : History) : Prop :=
  ∀ j, j < h.count →
    h.commands.getD ((h.start + j) % h.capacity) none ≠ none

instance (h : History) : Decidable (HistWF h) := by
  unfold HistWF; infer_instance

/-- Possible fates of the single child process spawned by
launch_process, supplied as an oracle since process creation and
program execution are outside the embedding. -/
inductive LaunchOutcome where
  | forkFailed
  | childExited (code : Nat)
  | childSignaled (sig : Nat)
deriving Repr, DecidableEq

/-- launch_process (wsh.c:528-611), parent side: resolve the
redirection intent, then either report a fork failure, or wait for the
child; on every one of these paths the function returns 1.  The child
side (redirection wiring, PATH probing, execv) runs in the child
process and is summarised by the oracle value. -/
def launch_process (orc : LaunchOutcome) (args : List String) : Int :=
  let _ := parse_redirection args
  match orc with
  | .forkFailed => 1
  | .childExited _ => 1
  | .childSignaled _ => 1

/-- strchr-based split at the first equals sign, as used by the export
and local built-ins (wsh.c:651-659, 678-686). -/
def splitAtFirstEqAux : List Char → Option (List Char × List Char)
  | [] => none
  | c :: cs =>
    if c = '=' then some ([], cs)
    else
      match splitAtFirstEqAux cs with
      | none => none
      | some (l, r) => some (c :: l, r)

/-- Split NAME=VALUE at the first equals sign; none when absent. -/
def splitAtFirstEq (s : String) : Option (String × String) :=
  (splitAtFirstEqAux s.data).map fun p => (String.mk p.1, String.mk p.2)

/-- setenv(name, value, 1): overwrite the first binding of name, or
append a new binding. -/
def setenv : Env → String → String → Env
  | [], name, value => [(name, value)]
  | (n, v) :: rest, name, value =>
    if n = name then (n, value) :: rest
    else (n, v) :: setenv rest name value

/-- The update loop of wsh_local_cmd (wsh.c:694-726): overwrite the
value of the first VarNode whose name matches, keeping its position;
otherwise append a new node at the tail. -/
def updateOrAppendVar : Vars → String → String → Vars
  | [], name, value => [(name, value)]
  | (n, v) :: rest, name, value =>
    if n = name then (n, value) :: rest
    else (n, v) :: updateOrAppendVar rest name value

/-- wsh_export (wsh.c:644-666): with a NAME=VALUE argument, set the
environment variable; missing or malformed arguments only print a
diagnostic.  The status is always 1. -/
def wsh_export (env : Env) (rest : List String) : Env :=
  match rest with
  | [] => env
  | arg :: _ =>
    match splitAtFirstEq arg with
    | none => env
    | some (var, value) => setenv env var value

/-- wsh_local_cmd (wsh.c:671-729): with a NAME=VALUE argument,
substitute the value (using the current environment and store), then
update in place or append.  Missing or malformed arguments leave the
store unchanged.  The status is always 1. -/
def wsh_local_cmd (env : Env) (vars : Vars) (rest : List String) : Vars :=
  match rest with
  | [] => vars
  | arg :: _ =>
    match splitAtFirstEq arg with
    | none => vars
    | some (var, value) =>
      updateOrAppendVar vars var (handle_variable_substitution env vars value)

/-- wsh_vars (wsh.c:734-742): the lines printed, in store order. -/
def wsh_vars_output (vars : Vars) : List String :=
  vars.map fun p => p.1 ++ "=" ++ p.2

/-- Result of running one command through execute_command: either the
shell keeps its read loop going with the given status and (possibly
updated) environment, variable store and history, or the whole shell
process terminates; cleanedUp records that cleanup_shell ran before
the exit call. -/
inductive CommandResult where
  | cont (status : Int) (env : Env) (vars : Vars) (hist : History)
  | exitShell (cleanedUp : Bool) (code : Nat)
deriving Repr, DecidableEq

/-- The body of execute_history_command (wsh.c:210-242), parameterised
by the executor used for the replayed line: out-of-range numbers
return 1 without touching any state; otherwise the stored line at the
ring slot start + count - number is duplicated, re-parsed and executed,
and the function returns 1 regardless of the executed status (a shell
exit inside the replay terminates the process and so propagates). -/
def replay_with (exec : List String → CommandResult) (env : Env) (vars : Vars)
    (h : History) (number : Int) : CommandResult :=
  if number ≤ 0 ∨ (h.count : Int) < number then .cont 1 env vars h
  else
    match h.commands.getD ((h.start + h.count - number.toNat) % h.capacity) none with
    | none => .cont 1 env vars h
    | some command =>
      match parse_line env vars command with
      | [] => .cont 1 env vars h
      | a :: as_ =>
        match exec (a :: as_) with
        | .cont _ env2 vars2 h2 => .cont 1 env2 vars2 h2
        | .exitShell c code => .exitShell c code

/-- The body of wsh_history_cmd (wsh.c:747-770), parameterised by the
replay function: no argument shows the ring; a set subcommand resizes
(rejecting non-positive sizes); a positive numeric argument replays;
anything else is a no-op with status 1. -/
def history_builtin_with (replay : Int → CommandResult) (env : Env) (vars : Vars)
    (h : History) (rest : List String) : CommandResult :=
  match rest with
  | [] => .cont 1 env vars h
  | a1 :: rest2 =>
    if a1 = "set" then
      match rest2 with
      | [] => .cont 1 env vars h
      | a2 :: _ =>
        if atoi a2 ≤ 0 then .cont 1 env vars h
        else .cont 1 env vars (set_history_capacity h (atoi a2))
    else if 0 < atoi a1 then replay (atoi a1)
    else .cont 1 env vars h

/-- The body of execute_command (wsh.c:476-520), parameterised by the
executor used for a replayed history line: empty vectors continue; a
history command with a positive numeric first argument is replayed;
built-ins are dispatched in table order; any other command is recorded
in history (as the arguments rejoined with single spaces) and
launched. -/
def execute_command_with (exec : List String → CommandResult) (orc : LaunchOutcome)
    (env : Env) (vars : Vars) (h : History) (args : List String) : CommandResult :=
  match args with
  | [] => .cont 1 env vars h
  | cmd :: rest =>
    if cmd = "history" ∧ rest ≠ [] ∧ 0 < atoi (rest.headD "") then
      replay_with exec env vars h (atoi (rest.headD ""))
    else if cmd = "cd" then
      -- wsh_cd (wsh.c:616-625): chdir or a diagnostic; always status 1.
      .cont 1 env vars h
    else if cmd = "exit" then
      -- wsh_exit_cmd (wsh.c:632-639): extra arguments print a
      -- diagnostic and continue; otherwise cleanup_shell then
      -- exit(EXIT_SUCCESS).
      match rest with
      | [] => .exitShell true 0
      | _ :: _ => .cont 1 env vars h
    else if cmd = "export" then
      .cont 1 (wsh_export env rest) vars h
    else if cmd = "local" then
      .cont 1 env (wsh_local_cmd env vars rest) h
    else if cmd = "vars" then
      .cont 1 env vars h
    else if cmd = "history" then
      history_builtin_with (fun n => replay_with exec env vars h n) env vars h rest
    else if cmd = "ls" then
      -- wsh_ls (wsh.c:775-806): spawns a fixed child; always status 1.
      .cont 1 env vars h
    else
      .cont (launch_process orc args) env vars
        (add_history h (String.intercalate " " args))

/-- execute_command, with the replay recursion (which the C code
leaves unbounded, so that a self-referential history entry overflows
the stack) bounded by fuel; exhausted fuel makes a replay a bare
continue, an artifact never reached when the fuel exceeds the actual
replay depth. -/
def execute_command : Nat → LaunchOutcome → Env → Vars → History → List String → CommandResult
  | 0, orc, env, vars, h, args =>
    execute_command_with (fun _ => .cont 1 env vars h) orc env vars h args
  | fuel + 1, orc, env, vars, h, args =>
    execute_command_with (fun as2 => execute_command fuel orc env vars h as2)
      orc env vars h args

/-- execute_history_command (wsh.c:210-242) with fuelled replay. -/
def execute_history_command (fuel : Nat) (orc : LaunchOutcome) (env : Env)
    (vars : Vars) (h : History) (number : Int) : CommandResult :=
  match fuel with
  | 0 => replay_with (fun _ => .cont 1 env vars h) env vars h number
  | fuel' + 1 =>
    replay_with (fun as2 => execute_command fuel' orc env vars h as2) env vars h number

/-- wsh_history_cmd (wsh.c:747-770) with fuelled replay. -/
def wsh_history_cmd (fuel : Nat) (orc : LaunchOutcome) (env : Env) (vars : Vars)
    (h : History) (rest : List String) : CommandResult :=
  history_builtin_with (fun n => execute_history_command fuel orc env vars h n)
    env vars h rest

/-- The execution, through the same engine, of a given line of text:
what execute_history_command does after it has selected a stored
entry.  Used to state that replay runs exactly the line that
show_history numbers k. -/
def replay_line (fuel : Nat) (orc : LaunchOutcome) (env : Env) (vars : Vars)
    (h : History) (line : String) : CommandResult :=
  match fuel with
  | 0 => .cont 1 env vars h
  | fuel' + 1 =>
    match parse_line env vars line with
    | [] => .cont 1 env vars h
    | a :: as_ =>
      match execute_command fuel' orc env vars h (a :: as_) with
      | .cont _ env2 vars2 h2 => .cont 1 env2 vars2 h2
      | .exitShell c code => .exitShell c code

/-- One iteration of the main read-eval loop (wsh.c:881-895) on a line
that survived comment and blank filtering, with leading whitespace and
the trailing newline already removed by the driver: record the line in
history, tokenize and substitute it, and execute the result. -/
def main_process_line (fuel : Nat) (orc : LaunchOutcome) (env : Env) (vars : Vars)
    (h : History) (line : String) : CommandResult :=
  execute_command fuel orc env vars (add_history h line) (parse_line env vars line)

/-- A small concrete history: the lines a, b, c recorded in that order
into a freshly initialized ring (so c is the most recent entry). -/
def history_abc : History :=
  add_history (add_history (add_history init_history "a") "b") "c"

theorem launch_process_eq_one (orc : LaunchOutcome) (args : List String) :
    launch_process orc args = 1 := by
  cases orc <;> rfl

theorem lookupVarLoop_eq_getD (vars : Vars) (name : String) :
    lookupVarLoop vars name = (lookupVar vars name).getD "" := by
  induction vars with
  | nil => rfl
  | cons p rest ih =>
    obtain ⟨n, v⟩ := p
    by_cases hn : n = name
    · simp [lookupVarLoop, lookupVar, hn]
    · simp [lookupVarLoop, lookupVar, hn, ih]

theorem hvs_cons (env : Env) (vars : Vars) (c : Char) (cs : List Char) :
    handle_variable_substitution env vars (String.mk (c :: cs)) =
      if c = '$' then
        (match getenv env (String.mk cs) with
         | some v => v
         | none => lookupVarLoop vars (String.mk cs))
      else String.mk (c :: cs) := rfl

theorem substitute_spec_cons (env : Env) (vars : Vars) (c : Char) (cs : List Char) :
    substitute_spec env vars (String.mk (c :: cs)) =
      if c = '$' then
        (((getenv env (String.mk cs)).orElse
            fun _ => lookupVar vars (String.mk cs)).getD "")
      else String.mk (c :: cs) := rfl

theorem hvs_eq_substitute_spec (env : Env) (vars : Vars) (t : String) :
    handle_variable_substitution env vars t = substitute_spec env vars t := by
  obtain ⟨data⟩ := t
  cases data with
  | nil => rfl
  | cons c cs =>
    rw [hvs_cons, substitute_spec_cons]
    by_cases hc : c = '$'
    · rw [if_pos hc, if_pos hc]
      cases hg : getenv env (String.mk cs) with
      | some v => simp [hg, Option.orElse]
      | none => simp [hg, Option.orElse, lookupVarLoop_eq_getD]
    · rw [if_neg hc, if_neg hc]

theorem hvs_dollar_append (env : Env) (vars : Vars) (name : String) :
    handle_variable_substitution env vars ("$" ++ name) =
      (match getenv env name with
       | some v => v
       | none => lookupVarLoop vars name) := by
  obtain ⟨d⟩ := name
  rfl

theorem splitAtFirstEqAux_append (name value : List Char) (h : '=' ∉ name) :
    splitAtFirstEqAux (name ++ '=' :: value) = some (name, value) := by
  induction name with
  | nil => simp [splitAtFirstEqAux]
  | cons c cs ih =>
    have hc : c ≠ '=' := fun he => h (by simp [he])
    have hrec := ih fun hm => h (by simp [hm])
    simp [splitAtFirstEqAux, hc, hrec]

theorem splitAtFirstEq_concat (name value : String) (h : '=' ∉ name.data) :
    splitAtFirstEq (name ++ "=" ++ value) = some (name, value) := by
  unfold splitAtFirstEq
  have hdata : (name ++ "=" ++ value).data = name.data ++ '=' :: value.data := by
    simp [String.data_append]
  rw [hdata, splitAtFirstEqAux_append name.data value.data h]
  simp

theorem lookupVarLoop_updateOrAppend (vars : Vars) (name v : String) :
    lookupVarLoop (updateOrAppendVar vars name v) name = v := by
  induction vars with
  | nil => simp [updateOrAppendVar, lookupVarLoop]
  | cons p rest ih =>
    obtain ⟨n, w⟩ := p
    by_cases hn : n = name
    · simp [updateOrAppendVar, hn, lookupVarLoop]
    · simp [updateOrAppendVar, hn, lookupVarLoop, ih]

theorem names_updateOrAppend (vars : Vars) (name v : String) :
    (updateOrAppendVar vars name v).map Prod.fst =
      if name ∈ vars.map Prod.fst then vars.map Prod.fst
      else vars.map Prod.fst ++ [name] := by
  induction vars with
  | nil => simp [updateOrAppendVar]
  | cons p rest ih =>
    obtain ⟨n, w⟩ := p
    by_cases hn : n = name
    · simp [updateOrAppendVar, hn]
    · have hne : name ≠ n := fun he => hn he.symm
      by_cases hmem : name ∈ rest.map Prod.fst
      · simp [updateOrAppendVar, hn, ih, hmem, hne]
      · simp [updateOrAppendVar, hn, ih, hmem, hne]

theorem replay_with_const (env : Env) (vars : Vars) (h : History) (number : Int) :
    replay_with (fun _ => CommandResult.cont 1 env vars h) env vars h number =
      .cont 1 env vars h := by
  unfold replay_with
  split
  · rfl
  · split
    · rfl
    · split
      · rfl
      · rfl

theorem history_builtin_with_cont (replay : Int → CommandResult) (env : Env)
    (vars : Vars) (h : History) (rest : List String)
    (hnr : ¬(rest ≠ [] ∧ 0 < atoi (rest.headD ""))) :
    ∃ h2, history_builtin_with replay env vars h rest = .cont 1 env vars h2 := by
  cases rest with
  | nil => exact ⟨h, rfl⟩
  | cons a1 rest2 =>
    by_cases hset : a1 = "set"
    · cases rest2 with
      | nil => exact ⟨h, by simp [history_builtin_with, hset]⟩
      | cons a2 r3 =>
        by_cases hle : atoi a2 ≤ 0
        · exact ⟨h, by simp [history_builtin_with, hset, hle]⟩
        · exact ⟨set_history_capacity h (atoi a2),
            by simp [history_builtin_with, hset, hle]⟩
    · have hpos : ¬(0 < atoi a1) := by
        intro hp
        exact hnr ⟨by simp, by simpa using hp⟩
      exact ⟨h, by simp [history_builtin_with, hset, hpos]⟩

theorem execute_command_with_shape (exec : List String → CommandResult)
    (orc : LaunchOutcome) (env : Env) (vars : Vars) (h : History)
    (cmd : String) (rest : List String) :
    (cmd ≠ "exit" → ¬(cmd = "history" ∧ rest ≠ [] ∧ 0 < atoi (rest.headD "")) →
       ∃ env2 vars2 h2,
         execute_command_with exec orc env vars h (cmd :: rest) =
           .cont 1 env2 vars2 h2) ∧
    (cmd = "exit" → rest ≠ [] →
       execute_command_with exec orc env vars h (cmd :: rest) = .cont 1 env vars h) ∧
    (cmd = "exit" → rest = [] →
       execute_command_with exec orc env vars h (cmd :: rest) = .exitShell true 0) := by
  refine ⟨?_, ?_, ?_⟩
  · intro hexit hspec
    simp only [execute_command_with]
    rw [if_neg hspec]
    by_cases h1 : cmd = "cd"
    · rw [if_pos h1]; exact ⟨env, vars, h, rfl⟩
    rw [if_neg h1]
    by_cases h2 : cmd = "exit"
    · exact absurd h2 hexit
    rw [if_neg h2]
    by_cases h3 : cmd = "export"
    · rw [if_pos h3]; exact ⟨wsh_export env rest, vars, h, rfl⟩
    rw [if_neg h3]
    by_cases h4 : cmd = "local"
    · rw [if_pos h4]; exact ⟨env, wsh_local_cmd env vars rest, h, rfl⟩
    rw [if_neg h4]
    by_cases h5 : cmd = "vars"
    · rw [if_pos h5]; exact ⟨env, vars, h, rfl⟩
    rw [if_neg h5]
    by_cases h6 : cmd = "history"
    · rw [if_pos h6]
      obtain ⟨h2, hh⟩ := history_builtin_with_cont
        (fun n => replay_with exec env vars h n) env vars h rest
        (fun hc => hspec ⟨h6, hc.1, hc.2⟩)
      exact ⟨env, vars, h2, hh⟩
    rw [if_neg h6]
    by_cases h7 : cmd = "ls"
    · rw [if_pos h7]; exact ⟨env, vars, h, rfl⟩
    rw [if_neg h7]
    rw [launch_process_eq_one]
    exact ⟨env, vars, add_history h (String.intercalate " " (cmd :: rest)), rfl⟩
  · intro hexit hrest
    subst hexit
    simp only [execute_command_with]
    rw [if_neg (by simp : ¬("exit" = "history" ∧ rest ≠ [] ∧ 0 < atoi (rest.headD "")))]
    rw [if_neg (by decide : ¬("exit" = "cd"))]
    cases rest with
    | nil => exact absurd rfl hrest
    | cons a r => simp
  · intro hexit hrest
    subst hexit
    subst hrest
    simp only [execute_command_with]
    rw [if_neg (by simp : ¬("exit" = "history" ∧ ([] : List String) ≠ [] ∧
      0 < atoi (([] : List String).headD "")))]
    rw [if_neg (by decide : ¬("exit" = "cd"))]
    simp

/-- Claim C1: the claim states that redirection operators are matched
longest first, so that a token beginning with the 3-character
append-and-merge operator yields the remainder after those three
characters as the output path, with append and stderr-merge set.  The
code tests the 2-character merge operator before the 3-character one
(wsh.c:344 before wsh.c:349), so the 3-character branch is unreachable:
on the argument vector cmd, ampersand-gt-gt-log.txt, parse_redirection
yields the output path gt-log.txt with append unset, not the claimed
log.txt with append set.  This theorem evaluates the embedded code at
that failing input and records that the claimed intent differs. -/
theorem claim1_append_merge_misclassified :
    parse_redirection ["cmd", "&>>log.txt"] =
      (["cmd"], { input := none, output := some ">log.txt", append := false,
                  redirect_stderr := true }) ∧
    parse_redirection ["cmd", "&>>log.txt"] ≠
      (["cmd"], { input := none, output := some "log.txt", append := true,
                  redirect_stderr := true }) := by
  decide

/-- Claim C2, counterexample: the claim states that redirection parsing
of the line cmd gt out.txt extra leaves cmd and extra as the executed
argument vector.  In the code the operator token is overwritten with
NULL and scanning stops, so the null-terminated executed vector is just
cmd: the tokens after the operator are dropped, not retained. -/
theorem claim2_counterexample :
    (parse_redirection (tokenize "cmd > out.txt extra")).1 = ["cmd"] ∧
    (parse_redirection (tokenize "cmd > out.txt extra")).1 ≠ ["cmd", "extra"] := by
  decide

/-- Claim C2, as amended: only the first redirection operator in
left-to-right order takes effect, and the operator token together with
every token after it is removed from the executed argument vector: for
any operator-free prefix, first operator token and arbitrary suffix,
parse_redirection returns exactly the prefix and the intent carried by
the operator token. -/
theorem claim2_first_operator_truncates (pre : List String) (t : String)
    (post : List String) (r : Redirection)
    (hpre : ∀ a ∈ pre, classify_redir_token a = none)
    (ht : classify_redir_token t = some r) :
    parse_redirection (pre ++ t :: post) = (pre, r) := by
  induction pre with
  | nil => simp [parse_redirection, ht]
  | cons a pre ih =>
    have ha : classify_redir_token a = none := hpre a (by simp)
    have hrec := ih fun x hx => hpre x (by simp [hx])
    simp [parse_redirection, ha, hrec]

/-- Witness for claim C2: on the tokens of the line cmd gt out.txt
extra, the first operator token is the bare gt (with empty operand) and
the executed vector is truncated to cmd alone. -/
theorem claim2_truncation_witness :
    parse_redirection ["cmd", ">", "out.txt", "extra"] =
      (["cmd"], { input := none, output := some "", append := false,
                  redirect_stderr := false }) :=
  claim2_first_operator_truncates ["cmd"] ">" ["out.txt", "extra"] _
    (by decide) (by decide)

/-- Claim C3: the claim states that the history ring never contains a
built-in command invocation.  Executing the line cd /tmp through the
main-loop step records it: add_history only filters lines that are
letter-for-letter equal to a built-in name, and the main loop records
the line before dispatch, so the built-in invocation cd /tmp (whose
command name cd is in the built-in table) ends up in the ring.  This
theorem evaluates the embedded code at that failing input. -/
theorem claim3_builtin_invocation_recorded :
    main_process_line 1 .forkFailed [] [] init_history "cd /tmp" =
      .cont 1 [] [] (add_history init_history "cd /tmp") ∧
    show_history (add_history init_history "cd /tmp") = ["cd /tmp"] ∧
    (tokenize "cd /tmp").headD "" ∈ builtin_str := by
  decide

/-- Claim C4: the claim states that each executed non-built-in command
line is recorded exactly once, as the original trimmed text.  The code
records twice: the main loop records the original line, and
execute_command then records the post-substitution arguments rejoined
with single spaces; whenever the two differ (here the line echo with
two spaces before hi), both strings land in the ring.  This theorem
evaluates the embedded code at that failing input. -/
theorem claim4_line_recorded_twice :
    main_process_line 1 .forkFailed [] [] init_history "echo  hi" =
      .cont 1 [] [] (add_history (add_history init_history "echo  hi") "echo hi") ∧
    show_history (add_history (add_history init_history "echo  hi") "echo hi") =
      ["echo hi", "echo  hi"] := by
  decide

/-- Claim C5: the claim states that resizing preserves the most recent
min(N, count) entries in their previous order, so show_history prints
the same initial lines afterwards.  With entries a, b, c (newest c),
show_history prints c, b, a; after resizing to capacity 2 it prints
b, c instead of the claimed c, b: the resize loop copies newest-first
into ascending slots and resets start to zero, reversing the logical
order of the survivors.  The rejection of non-positive sizes, which
leaves the state untouched, does hold and is also evaluated here. -/
theorem claim5_resize_reverses_recent_entries :
    show_history history_abc = ["c", "b", "a"] ∧
    show_history (set_history_capacity history_abc 2) = ["b", "c"] ∧
    set_history_capacity history_abc 0 = history_abc ∧
    set_history_capacity history_abc (-1) = history_abc := by
  decide

/-- Claim C6: for every well-formed history state, replaying index k
with 1 le k le count executes exactly the line that show_history prints
as its k-th entry (the replay runs it through the same engine), and
replaying index 0, a negative index, or an index greater than count is
a silent no-op that leaves the environment, the variable store and the
history unchanged and returns the continue status 1. -/
theorem claim6_replay_matches_shown_entry (fuel : Nat) (orc : LaunchOutcome)
    (env : Env) (vars : Vars) (h : History) (k : Int) (hwf : HistWF h) :
    ((k ≤ 0 ∨ (h.count : Int) < k) →
       execute_history_command fuel orc env vars h k = .cont 1 env vars h) ∧
    (1 ≤ k → k ≤ (h.count : Int) →
       execute_history_command fuel orc env vars h k =
         replay_line fuel orc env vars h ((show_history h).getD (k.toNat - 1) "")) := by
  constructor
  · intro hk
    cases fuel with
    | zero => simp [execute_history_command, replay_with, hk]
    | succ f => simp [execute_history_command, replay_with, hk]
  · intro h1 hk
    have hguard : ¬(k ≤ 0 ∨ (h.count : Int) < k) := by omega
    have hkn1 : 1 ≤ k.toNat := by omega
    have hknc : k.toNat ≤ h.count := by omega
    have hidx : h.start + h.count - k.toNat = h.start + (h.count - k.toNat) := by omega
    have hwfj := hwf (h.count - k.toNat) (by omega)
    obtain ⟨s, hs⟩ := Option.ne_none_iff_exists'.mp hwfj
    have hshow : (show_history h).getD (k.toNat - 1) "" = s := by
      unfold show_history
      rw [List.getD_eq_getElem?_getD, List.getElem?_map,
        List.getElem?_range (by omega : k.toNat - 1 < h.count)]
      have hix : h.start + h.count - 1 - (k.toNat - 1) =
          h.start + (h.count - k.toNat) := by omega
      simp only [Option.map_some', Option.getD_some, hix, hs]
    have hlook : h.commands.getD ((h.start + h.count - k.toNat) % h.capacity) none
        = some s := by
      rw [hidx]; exact hs
    cases fuel with
    | zero =>
      rw [show execute_history_command 0 orc env vars h k =
          replay_with (fun _ => CommandResult.cont 1 env vars h) env vars h k from rfl]
      rw [replay_with_const]
      rfl
    | succ f =>
      show replay_with (fun as2 => execute_command f orc env vars h as2) env vars h k =
        replay_line (f + 1) orc env vars h ((show_history h).getD (k.toNat - 1) "")
      rw [hshow]
      show (if k ≤ 0 ∨ (h.count : Int) < k then CommandResult.cont 1 env vars h
        else
          match h.commands.getD ((h.start + h.count - k.toNat) % h.capacity) none with
          | none => CommandResult.cont 1 env vars h
          | some command =>
            match parse_line env vars command with
            | [] => CommandResult.cont 1 env vars h
            | a :: as_ =>
              match execute_command f orc env vars h (a :: as_) with
              | .cont _ env2 vars2 h2 => CommandResult.cont 1 env2 vars2 h2
              | .exitShell c code => CommandResult.exitShell c code) =
        replay_line (f + 1) orc env vars h s
      rw [if_neg hguard, hlook]
      rfl

/-- Witness for claim C6: on the concrete history with entries a, b, c,
replaying index 2 executes exactly the second line printed by
show_history. -/
theorem claim6_replay_witness :
    execute_history_command 3 .forkFailed [] [] history_abc 2 =
      replay_line 3 .forkFailed [] [] history_abc ((show_history history_abc).getD 1 "") :=
  (claim6_replay_matches_shown_entry 3 .forkFailed [] [] history_abc 2
    (by decide)).2 (by decide) (by decide)

/-- Claim C7: every token produced by tokenization is substituted
independently, exactly as the specification words it: a token starting
with the dollar sign has its remainder looked up first among
environment variables, then in the variable store, and is replaced by
a copy of the value found or by an empty-string token that stays in
the vector (so the argument count is unchanged); other tokens are
copied verbatim.  The code-side parse_line coincides pointwise with
the spec-side substitute function and preserves the token count. -/
theorem claim7_substitution_refines_spec (env : Env) (vars : Vars) (line : String) :
    parse_line env vars line = (tokenize line).map (substitute_spec env vars) ∧
    (parse_line env vars line).length = (tokenize line).length := by
  constructor
  · exact List.map_congr_left fun t _ => hvs_eq_substitute_spec env vars t
  · simp [parse_line]

/-- Claim C8, counterexample: the claim states that after a valid local
assignment, substituting the name yields the assigned value.  The
substitution consults environment variables before the store, so with
PATH bound to /bin in the environment (as initialize_shell guarantees),
a local assignment of PATH to /tmp is stored but the substitution of
PATH still yields /bin, not the assigned /tmp. -/
theorem claim8_counterexample :
    lookupVar (wsh_local_cmd [("PATH", "/bin")] [] ["PATH=/tmp"]) "PATH"
      = some "/tmp" ∧
    handle_variable_substitution [("PATH", "/bin")]
      (wsh_local_cmd [("PATH", "/bin")] [] ["PATH=/tmp"]) "$PATH" = "/bin" ∧
    handle_variable_substitution [("PATH", "/bin")]
      (wsh_local_cmd [("PATH", "/bin")] [] ["PATH=/tmp"]) "$PATH" ≠ "/tmp" := by
  decide

/-- Claim C8, as amended: for a valid NAME=VALUE argument to the local
built-in, provided NAME is not bound as an environment variable, a
subsequent substitution of NAME yields VALUE after the substitution
applied to VALUE at assignment time; and the store lists NAME exactly
once, at its first-assignment position, even after updates (an
existing binding keeps its place, a new one is appended at the
tail). -/
theorem claim8_local_lookup_and_vars_order (env : Env) (vars : Vars)
    (name value : String) (henv : getenv env name = none)
    (hname : '=' ∉ name.data) (hnodup : (vars.map Prod.fst).Nodup) :
    handle_variable_substitution env
        (wsh_local_cmd env vars [name ++ "=" ++ value]) ("$" ++ name) =
      handle_variable_substitution env vars value ∧
    ((wsh_local_cmd env vars [name ++ "=" ++ value]).map Prod.fst).count name = 1 ∧
    (wsh_local_cmd env vars [name ++ "=" ++ value]).map Prod.fst =
      (if name ∈ vars.map Prod.fst then vars.map Prod.fst
       else vars.map Prod.fst ++ [name]) := by
  have hsplit := splitAtFirstEq_concat name value hname
  have hlocal : wsh_local_cmd env vars [name ++ "=" ++ value] =
      updateOrAppendVar vars name (handle_variable_substitution env vars value) := by
    simp [wsh_local_cmd, hsplit]
  refine ⟨?_, ?_, ?_⟩
  · rw [hlocal, hvs_dollar_append, henv]
    exact lookupVarLoop_updateOrAppend vars name _
  · rw [hlocal, names_updateOrAppend]
    by_cases hmem : name ∈ vars.map Prod.fst
    · rw [if_pos hmem]
      exact List.count_eq_one_of_mem hnodup hmem
    · rw [if_neg hmem, List.count_append]
      rw [List.count_eq_zero.mpr hmem]
      simp
  · rw [hlocal]
    exact names_updateOrAppend vars name _

/-- Witness for claim C8: with an empty environment and a store holding
A, assigning B the value dollar-A makes the substitution of B agree
with the substitution of dollar-A at assignment time, and B is listed
once, appended after A. -/
theorem claim8_local_witness :
    handle_variable_substitution []
        (wsh_local_cmd [] [("A", "1")] ["B" ++ "=" ++ "$A"]) ("$" ++ "B") =
      handle_variable_substitution [] [("A", "1")] "$A" ∧
    ((wsh_local_cmd [] [("A", "1")] ["B" ++ "=" ++ "$A"]).map Prod.fst).count "B" = 1 ∧
    (wsh_local_cmd [] [("A", "1")] ["B" ++ "=" ++ "$A"]).map Prod.fst =
      (if "B" ∈ [("A", "1")].map Prod.fst then [("A", "1")].map Prod.fst
       else [("A", "1")].map Prod.fst ++ ["B"]) :=
  claim8_local_lookup_and_vars_order [] [("A", "1")] "B" "$A"
    (by decide) (by decide) (by decide)

/-- Claim C9, counterexample: the claim states that execute_command
returns the continue status for every non-empty argument vector whose
command is not the exit built-in.  With the environment binding E to
exit and a history whose entry is the single token dollar-E, the vector
history 1 (command name history, not exit) replays that entry, which
substitutes to the bare exit built-in, and the shell terminates instead
of continuing.  The state is reachable: run dollar-E with E unset (a
recorded command-not-found), export E=exit, then replay. -/
theorem claim9_counterexample :
    execute_command 2 .forkFailed [("E", "exit")] []
        (add_history init_history "$E") ["history", "1"] = .exitShell true 0 ∧
    "history" ≠ "exit" := by
  decide

/-- Claim C9, as amended: for every argument vector whose command is
neither the exit built-in nor a history replay invocation (the token
history followed by an argument that atoi reads as positive),
execute_command returns the continue status 1 on every path, for every
child outcome (fork failure, any child exit code, a signaled child) —
so no child outcome changes the control flow; exit with extra
arguments prints a diagnostic and continues with the state unchanged;
bare exit terminates the shell with success status after releasing the
shell state.  A history replay may additionally terminate the shell
exactly when the replayed line itself reaches the bare exit
built-in. -/
theorem claim9_continue_status (fuel : Nat) (orc : LaunchOutcome) (env : Env)
    (vars : Vars) (h : History) (cmd : String) (rest : List String) :
    (cmd ≠ "exit" → ¬(cmd = "history" ∧ rest ≠ [] ∧ 0 < atoi (rest.headD "")) →
       ∃ env2 vars2 h2,
         execute_command fuel orc env vars h (cmd :: rest) = .cont 1 env2 vars2 h2) ∧
    (cmd = "exit" → rest ≠ [] →
       execute_command fuel orc env vars h (cmd :: rest) = .cont 1 env vars h) ∧
    (cmd = "exit" → rest = [] →
       execute_command fuel orc env vars h (cmd :: rest) = .exitShell true 0) := by
  cases fuel with
  | zero => exact execute_command_with_shape _ orc env vars h cmd rest
  | succ f => exact execute_command_with_shape _ orc env vars h cmd rest

/-- Witness for claim C9: cd continues with status 1, exit with an
extra argument continues with the state untouched, and bare exit
terminates with success after cleanup. -/
theorem claim9_continue_witness :
    (∃ env2 vars2 h2,
       execute_command 0 .forkFailed [] [] init_history ["cd", "/tmp"] =
         .cont 1 env2 vars2 h2) ∧
    execute_command 0 .forkFailed [] [] init_history ["exit", "now"] =
      .cont 1 [] [] init_history ∧
    execute_command 0 .forkFailed [] [] init_history ["exit"] = .exitShell true 0 :=
  ⟨(claim9_continue_status 0 .forkFailed [] [] init_history "cd" ["/tmp"]).1
      (by decide) (by decide),
   (claim9_continue_status 0 .forkFailed [] [] init_history "exit" ["now"]).2.1 rfl
      (by decide),
   (claim9_continue_status 0 .forkFailed [] [] init_history "exit" []).2.2 rfl rfl⟩

/-- Claim C10: variable substitution uses the entire token remainder
after the leading dollar sign as the lookup name (never a proper
prefix of it), and applies only when the dollar sign is the very first
character: a token with a dollar sign in any other position is copied
verbatim with no substitution. -/
theorem claim10_full_remainder_substitution (env : Env) (vars : Vars) :
    (∀ rest : List Char,
       handle_variable_substitution env vars (String.mk ('$' :: rest)) =
         (((getenv env (String.mk rest)).orElse
             fun _ => lookupVar vars (String.mk rest)).getD "")) ∧
    (∀ tok : String, tok.data.head? ≠ some '$' →
       handle_variable_substitution env vars tok = tok) := by
  constructor
  · intro rest
    rw [hvs_cons, if_pos rfl]
    cases hg : getenv env (String.mk rest) with
    | some v => simp [hg, Option.orElse]
    | none => simp [hg, Option.orElse, lookupVarLoop_eq_getD]
  · intro tok htok
    obtain ⟨data⟩ := tok
    cases data with
    | nil => rfl
    | cons c cs =>
      have hc : c ≠ '$' := by
        intro he
        exact htok (by simp [he])
      rw [hvs_cons, if_neg hc]

/-- Witness for claim C10: the token a-dollar-b, whose dollar sign is
not leading, is copied verbatim even though b is a bound variable. -/
theorem claim10_substitution_witness :
    handle_variable_substitution [("b", "B")] [] "a$b" = "a$b" :=
  (claim10_full_remainder_substitution [("b", "B")] []).2 "a$b" (by decide)

end Wsh
